import Mathlib

set_option linter.unusedVariables false

/-! # Shallow embedding of the waverly WAV library (src/src/lib.rs)

Byte streams are modelled as lists of naturals (a well-formed stream has every
byte `< 256`); multi-byte integers are little-endian, matching the `#[br(little)]`
field attributes.  The binrw-derived chunk readers are modelled as explicit
functions returning `Option (chunk × rest)`; the derived enum reader for `Chunk`
tries each variant in declaration order, backtracking on failure, with the
zero-length-magic `EOF` variant as a final catch-all.  The binrw-derived writers
are modelled as functions producing byte lists. -/

/-- Little-endian encoding of a 16-bit value into two bytes. -/
def writeU16 (n : Nat) : List Nat := [n % 256, n / 256 % 256]

/-- Little-endian encoding of a 32-bit value into four bytes. -/
def writeU32 (n : Nat) : List Nat :=
  [n % 256, n / 256 % 256, n / 65536 % 256, n / 16777216 % 256]

/-- Read a little-endian 16-bit integer (two bytes). -/
def readU16P : List Nat → Option (Nat × List Nat)
  | b0 :: b1 :: rest => some (b0 + 256 * b1, rest)
  | _ => none

/-- Read a little-endian 32-bit integer (four bytes). -/
def readU32P : List Nat → Option (Nat × List Nat)
  | b0 :: b1 :: b2 :: b3 :: rest =>
      some (b0 + 256 * b1 + 65536 * b2 + 16777216 * b3, rest)
  | _ => none

/-- Read exactly `n` raw bytes. -/
def readBytesP (n : Nat) (bs : List Nat) : Option (List Nat × List Nat) :=
  if n ≤ bs.length then some (bs.take n, bs.drop n) else none

/-- Match a fixed magic byte sequence at the head of the stream. -/
def expectMagicP (m bs : List Nat) : Option (List Nat) :=
  if bs.take m.length = m then some (bs.drop m.length) else none

/-- The magic of `RiffChunk`: `b"RIFF"`. -/
def riffMagic : List Nat := [82, 73, 70, 70]
/-- The magic of `FormatChunk`: `b"WAVEfmt "` (8 bytes). -/
def fmtMagic : List Nat := [87, 65, 86, 69, 102, 109, 116, 32]
/-- The magic of `FactChunk`: `b"fact"`. -/
def factMagic : List Nat := [102, 97, 99, 116]
/-- The magic of `PeakChunk`: `b"PEAK"`. -/
def peakMagic : List Nat := [80, 69, 65, 75]
/-- The magic of `DataChunk`: `b"data"`. -/
def dataMagic : List Nat := [100, 97, 116, 97]

/-- A well-formed byte stream: every element is an actual byte. -/
def bytesValid (bs : List Nat) : Prop := ∀ b ∈ bs, b < 256

/-- Mirrors `std::io::ErrorKind` as used by the library. -/
inductive IoErrorKind where
  | invalidInput
  deriving DecidableEq, Repr

/-- Mirrors `WaverlyError`: either a wrapped `io::Error` or a wrapped
`binrw::Error` (structural parse failure). -/
inductive WaverlyError where
  | ioError (kind : IoErrorKind) (msg : String)
  | parseError (msg : String)
  deriving DecidableEq, Repr

/-- Mirrors `WaveFormat` (`#[brw(repr = u16)]`). -/
inductive WaveFormat where
  | pcm
  | ieeeFloat
  | alaw
  | mulaw
  | extensible
  deriving DecidableEq, Repr

/-- The `u16` representation of a `WaveFormat` value. -/
def WaveFormat.toU16 : WaveFormat → Nat
  | .pcm => 0x01
  | .ieeeFloat => 0x03
  | .alaw => 0x06
  | .mulaw => 0x07
  | .extensible => 0x08

/-- Decode a raw `u16` into a `WaveFormat`; any other value is rejected. -/
def waveFormatOfU16 (v : Nat) : Option WaveFormat :=
  if v = 0x01 then some .pcm
  else if v = 0x03 then some .ieeeFloat
  else if v = 0x06 then some .alaw
  else if v = 0x07 then some .mulaw
  else if v = 0x08 then some .extensible
  else none

/-- Mirrors `BitDepth` (`#[brw(repr = u16)]`). -/
inductive BitDepth where
  | eight
  | sixteen
  | twentyFour
  | thirtyTwo
  | sixtyFour
  deriving DecidableEq, Repr

/-- The `u16` representation of a `BitDepth` value. -/
def BitDepth.toU16 : BitDepth → Nat
  | .eight => 0x08
  | .sixteen => 0x10
  | .twentyFour => 0x18
  | .thirtyTwo => 0x20
  | .sixtyFour => 0x40

/-- Decode a raw `u16` into a `BitDepth`; any other value is rejected. -/
def bitDepthOfU16 (v : Nat) : Option BitDepth :=
  if v = 0x08 then some .eight
  else if v = 0x10 then some .sixteen
  else if v = 0x18 then some .twentyFour
  else if v = 0x20 then some .thirtyTwo
  else if v = 0x40 then some .sixtyFour
  else none

/-- Mirrors `ExtensibleFormat`. -/
structure ExtensibleFormat where
  size : Nat
  valid_bits_per_sample : Nat
  channel_mask : Nat
  sub_format_guid : List Nat
  deriving DecidableEq, Repr

/-- Mirrors `FormatChunk` (magic `b"WAVEfmt "`). -/
structure FormatChunk where
  size : Nat
  audio_format : WaveFormat
  num_channels : Nat
  sample_rate : Nat
  byte_rate : Nat
  block_align : Nat
  bits_per_sample : BitDepth
  extensible : Option ExtensibleFormat
  deriving DecidableEq, Repr

/-- Mirrors `FactChunk` (magic `b"fact"`). -/
structure FactChunk where
  size : Nat
  data : Nat
  deriving DecidableEq, Repr

/-- Mirrors `DataChunk` (magic `b"data"`). -/
structure DataChunk where
  size : Nat
  data : List Nat
  deriving DecidableEq, Repr

/-- Mirrors `Peak`.  The `f32` amplitude is kept as its four raw
little-endian bytes: the library only stores and copies it, never
computes with it. -/
structure Peak where
  value : List Nat
  position : Nat
  deriving DecidableEq, Repr

/-- Mirrors `PeakChunk` (magic `b"PEAK"`). -/
structure PeakChunk where
  size : Nat
  version : Nat
  timestamp : Nat
  peaks : List Peak
  deriving DecidableEq, Repr

/-- Mirrors `RiffChunk` (magic `b"RIFF"`). -/
structure RiffChunk where
  size : Nat
  deriving DecidableEq, Repr

/-- Mirrors the `Chunk` enum, in source declaration order. -/
inductive Chunk where
  | riff (c : RiffChunk)
  | format (c : FormatChunk)
  | fact (c : FactChunk)
  | peak (c : PeakChunk)
  | data (c : DataChunk)
  | empty
  | eof
  deriving DecidableEq, Repr

/-- Mirrors the assembled `Wave` struct (field order is the write order). -/
structure Wave where
  riff : RiffChunk
  format : FormatChunk
  data : DataChunk
  fact : Option FactChunk
  peak : Option PeakChunk
  deriving DecidableEq, Repr

/-- Reader for `RiffChunk`: magic, then `size: u32`. -/
def parseRiff (bs : List Nat) : Option (RiffChunk × List Nat) :=
  (expectMagicP riffMagic bs).bind fun r =>
    (readU32P r).map fun p => ({ size := p.1 }, p.2)

/-- Reader for the nested `ExtensibleFormat` record. -/
def parseExtensible (bs : List Nat) : Option (ExtensibleFormat × List Nat) :=
  (readU16P bs).bind fun p1 =>
    (readU16P p1.2).bind fun p2 =>
      (readU32P p2.2).bind fun p3 =>
        (readBytesP 16 p3.2).map fun p4 =>
          ({ size := p1.1, valid_bits_per_sample := p2.1,
             channel_mask := p3.1, sub_format_guid := p4.1 }, p4.2)

/-- Reader for `FormatChunk`: magic, seven fixed little-endian fields, then
the `ExtensibleFormat` record exactly when `audio_format == WaveFormat::Pcm`
(the `#[br(little, if(audio_format == WaveFormat::Pcm))]` gate). -/
def parseFormat (bs : List Nat) : Option (FormatChunk × List Nat) :=
  (expectMagicP fmtMagic bs).bind fun r0 =>
    (readU32P r0).bind fun psize =>
      (readU16P psize.2).bind fun paf =>
        (waveFormatOfU16 paf.1).bind fun af =>
          (readU16P paf.2).bind fun pnc =>
            (readU32P pnc.2).bind fun psr =>
              (readU32P psr.2).bind fun pbr =>
                (readU16P pbr.2).bind fun pba =>
                  (readU16P pba.2).bind fun pbits =>
                    (bitDepthOfU16 pbits.1).bind fun bits =>
                      if af = WaveFormat.pcm then
                        (parseExtensible pbits.2).map fun pe =>
                          ({ size := psize.1, audio_format := af,
                             num_channels := pnc.1, sample_rate := psr.1,
                             byte_rate := pbr.1, block_align := pba.1,
                             bits_per_sample := bits,
                             extensible := some pe.1 }, pe.2)
                      else
                        some ({ size := psize.1, audio_format := af,
                                num_channels := pnc.1, sample_rate := psr.1,
                                byte_rate := pbr.1, block_align := pba.1,
                                bits_per_sample := bits,
                                extensible := none }, pbits.2)

/-- Reader for `FactChunk`: magic, `size: u32`, then a single `data: u32`
(always four body bytes, regardless of `size`). -/
def parseFact (bs : List Nat) : Option (FactChunk × List Nat) :=
  (expectMagicP factMagic bs).bind fun r =>
    (readU32P r).bind fun ps =>
      (readU32P ps.2).map fun pd => ({ size := ps.1, data := pd.1 }, pd.2)

/-- Reader for one `Peak` record: `value: f32` (four raw bytes), `position: u32`. -/
def parsePeakRec (bs : List Nat) : Option (Peak × List Nat) :=
  (readBytesP 4 bs).bind fun pv =>
    (readU32P pv.2).map fun pp => ({ value := pv.1, position := pp.1 }, pp.2)

/-- Reader for `PeakChunk`: magic, three `u32` fields, then exactly two `Peak`
records (the `#[br(count = 2)]` directive). -/
def parsePeak (bs : List Nat) : Option (PeakChunk × List Nat) :=
  (expectMagicP peakMagic bs).bind fun r =>
    (readU32P r).bind fun ps =>
      (readU32P ps.2).bind fun pv =>
        (readU32P pv.2).bind fun pt =>
          (parsePeakRec pt.2).bind fun p1 =>
            (parsePeakRec p1.2).map fun p2 =>
              ({ size := ps.1, version := pv.1, timestamp := pt.1,
                 peaks := [p1.1, p2.1] }, p2.2)

/-- Reader for `DataChunk`: magic, `size: u32`, then exactly `size` payload
bytes (the `#[br(count = size)]` directive). -/
def parseData (bs : List Nat) : Option (DataChunk × List Nat) :=
  (expectMagicP dataMagic bs).bind fun r =>
    (readU32P r).bind fun ps =>
      (readBytesP ps.1 ps.2).map fun pd => ({ size := ps.1, data := pd.1 }, pd.2)

/-- The derived reader for the `Chunk` enum: each variant is tried in
declaration order, backtracking on failure; `Empty` consumes a single zero
byte; `EOF` has the zero-length magic `b""` and therefore matches at any
position, consuming nothing. -/
def parseChunk (bs : List Nat) : Chunk × List Nat :=
  match parseRiff bs with
  | some p => (.riff p.1, p.2)
  | none =>
  match parseFormat bs with
  | some p => (.format p.1, p.2)
  | none =>
  match parseFact bs with
  | some p => (.fact p.1, p.2)
  | none =>
  match parsePeak bs with
  | some p => (.peak p.1, p.2)
  | none =>
  match parseData bs with
  | some p => (.data p.1, p.2)
  | none =>
  match bs with
  | b :: r => if b = 0 then (.empty, r) else (.eof, bs)
  | [] => (.eof, [])

/-- Fuel-indexed chunk-sequence reader; `parseChunks` supplies enough fuel
that the bound is never hit (every non-`EOF` chunk consumes at least one
byte). -/
def parseChunksF : Nat → List Nat → List Chunk × List Nat
  | 0, bs => ([], bs)
  | fuel + 1, bs =>
    match parseChunk bs with
    | (.eof, _) => ([], bs)
    | (c, rest) =>
      let p := parseChunksF fuel rest
      (c :: p.1, p.2)

/-- Mirrors `MyFile::read`: `until_exclusive(|byte| byte == &Chunk::EOF)` —
read chunks until the `EOF` sentinel, which is not kept.  Returns the chunk
list and the unconsumed remainder of the stream. -/
def parseChunks (bs : List Nat) : List Chunk × List Nat :=
  parseChunksF (bs.length + 1) bs

/-- The named slots filled by the chunk-folding loop of `Wave::from_reader`. -/
structure Slots where
  riff : Option RiffChunk := none
  format : Option FormatChunk := none
  data : Option DataChunk := none
  fact : Option FactChunk := none
  peak : Option PeakChunk := none
  deriving DecidableEq, Repr

/-- One step of the chunk-folding loop of `Wave::from_reader`
(last write wins; `Empty` and `EOF` are discarded). -/
def foldChunk (s : Slots) : Chunk → Slots
  | .riff c => { s with riff := some c }
  | .data c => { s with data := some c }
  | .format c => { s with format := some c }
  | .fact c => { s with fact := some c }
  | .peak c => { s with peak := some c }
  | .empty => s
  | .eof => s

/-- The complete folding loop over a decoded chunk list. -/
def foldSlots (chunks : List Chunk) : Slots :=
  chunks.foldl foldChunk {}

/-- The validation tail of `Wave::from_reader`: the required-chunk checks,
in source order, each raising `io::Error::new(InvalidInput, ..)` wrapped
as `WaverlyError::IoError`. -/
def assemble (chunks : List Chunk) : Except WaverlyError Wave :=
  let s := foldSlots chunks
  match s.riff with
  | none => .error (.ioError .invalidInput "RIFF chunk was not found in file.")
  | some riff =>
  match s.format with
  | none => .error (.ioError .invalidInput "FORMAT chunk was not found in file.")
  | some format =>
  match s.data with
  | none => .error (.ioError .invalidInput "DATA chunk was not found in file.")
  | some data =>
    if format.audio_format ≠ WaveFormat.pcm ∧ s.fact = none then
      .error (.ioError .invalidInput "FACT format is required for non-PCM WAV formats")
    else
      .ok { riff := riff, format := format, data := data,
            fact := s.fact, peak := s.peak }

/-- Mirrors `Wave::from_reader` on an in-memory byte stream: parse the chunk
sequence, fold it into slots, and validate. -/
def fromReader (bytes : List Nat) : Except WaverlyError Wave :=
  assemble (parseChunks bytes).1

/-- Writer for `RiffChunk`. -/
def writeRiff (c : RiffChunk) : List Nat := riffMagic ++ writeU32 c.size

/-- Writer for the nested `ExtensibleFormat` record. -/
def writeExtensible (e : ExtensibleFormat) : List Nat :=
  writeU16 e.size ++ writeU16 e.valid_bits_per_sample ++
    writeU32 e.channel_mask ++ e.sub_format_guid

/-- Writer for `FormatChunk`: the extensible record is written exactly when
the in-memory `Option` is `Some`, independent of `audio_format`. -/
def writeFormat (f : FormatChunk) : List Nat :=
  fmtMagic ++ writeU32 f.size ++ writeU16 f.audio_format.toU16 ++
    writeU16 f.num_channels ++ writeU32 f.sample_rate ++
    writeU32 f.byte_rate ++ writeU16 f.block_align ++
    writeU16 f.bits_per_sample.toU16 ++
    (match f.extensible with
     | some e => writeExtensible e
     | none => [])

/-- Writer for `FactChunk`. -/
def writeFact (c : FactChunk) : List Nat :=
  factMagic ++ writeU32 c.size ++ writeU32 c.data

/-- Writer for one `Peak` record. -/
def writePeakRec (p : Peak) : List Nat := p.value ++ writeU32 p.position

/-- Writer for `PeakChunk` (every stored peak is written). -/
def writePeak (c : PeakChunk) : List Nat :=
  peakMagic ++ writeU32 c.size ++ writeU32 c.version ++ writeU32 c.timestamp ++
    (c.peaks.map writePeakRec).flatten

/-- Writer for `DataChunk` (the stored payload is written as-is). -/
def writeDataChunk (c : DataChunk) : List Nat :=
  dataMagic ++ writeU32 c.size ++ c.data

/-- Mirrors `Wave::write`: the binrw-derived writer emits the fields of
`Wave` in declaration order — RIFF, FORMAT, DATA, then FACT and PEAK when
present — with no terminator. -/
def writeWave (w : Wave) : List Nat :=
  writeRiff w.riff ++ writeFormat w.format ++ writeDataChunk w.data ++
    (match w.fact with
     | some c => writeFact c
     | none => []) ++
    (match w.peak with
     | some c => writePeak c
     | none => [])

/-- A decoded chunk list in canonical on-disk order:
RIFF, FORMAT, DATA, optional FACT, optional PEAK, no filler. -/
def isCanonical (l : List Chunk) : Prop :=
  (∃ r f d, l = [.riff r, .format f, .data d]) ∨
  (∃ r f d fa, l = [.riff r, .format f, .data d, .fact fa]) ∨
  (∃ r f d pk, l = [.riff r, .format f, .data d, .peak pk]) ∨
  (∃ r f d fa pk, l = [.riff r, .format f, .data d, .fact fa, .peak pk])

/-- The kind tag of a chunk, used to state uniqueness hypotheses. -/
def chunkKind : Chunk → Nat
  | .riff _ => 0
  | .format _ => 1
  | .fact _ => 2
  | .peak _ => 3
  | .data _ => 4
  | .empty => 5
  | .eof => 6

/-- What a successful dispatch of each chunk constructor means in terms of
the per-chunk readers (used to invert `parseChunk`). -/
def chunkParsedFrom : Chunk → List Nat → List Nat → Prop
  | .riff x, bs, rest => parseRiff bs = some (x, rest)
  | .format x, bs, rest => parseFormat bs = some (x, rest)
  | .fact x, bs, rest => parseFact bs = some (x, rest)
  | .peak x, bs, rest => parsePeak bs = some (x, rest)
  | .data x, bs, rest => parseData bs = some (x, rest)
  | .empty, bs, rest => bs = 0 :: rest
  | .eof, bs, rest => rest = bs

/-! ## Basic lemmas about the primitive readers and writers -/

theorem bytesValid_append {a b : List Nat} :
    bytesValid (a ++ b) ↔ bytesValid a ∧ bytesValid b := by
  constructor
  · intro h
    exact ⟨fun x hx => h x (List.mem_append.mpr (Or.inl hx)),
           fun x hx => h x (List.mem_append.mpr (Or.inr hx))⟩
  · rintro ⟨h1, h2⟩ x hx
    rcases List.mem_append.mp hx with hm | hm
    · exact h1 x hm
    · exact h2 x hm

theorem writeU16_rt {b0 b1 : Nat} (h0 : b0 < 256) (h1 : b1 < 256) :
    writeU16 (b0 + 256 * b1) = [b0, b1] := by
  simp only [writeU16, List.cons.injEq, and_true]
  omega

theorem writeU32_rt {b0 b1 b2 b3 : Nat} (h0 : b0 < 256) (h1 : b1 < 256)
    (h2 : b2 < 256) (h3 : b3 < 256) :
    writeU32 (b0 + 256 * b1 + 65536 * b2 + 16777216 * b3) = [b0, b1, b2, b3] := by
  simp only [writeU32, List.cons.injEq, and_true]
  omega

theorem readU16P_some {bs : List Nat} {n : Nat} {rest : List Nat}
    (h : readU16P bs = some (n, rest)) :
    ∃ b0 b1, bs = b0 :: b1 :: rest ∧ n = b0 + 256 * b1 := by
  rcases bs with _ | ⟨b0, _ | ⟨b1, r⟩⟩ <;> simp [readU16P] at h
  exact ⟨b0, b1, by rw [h.2], h.1.symm⟩

theorem readU32P_some {bs : List Nat} {n : Nat} {rest : List Nat}
    (h : readU32P bs = some (n, rest)) :
    ∃ b0 b1 b2 b3, bs = b0 :: b1 :: b2 :: b3 :: rest ∧
      n = b0 + 256 * b1 + 65536 * b2 + 16777216 * b3 := by
  rcases bs with _ | ⟨b0, _ | ⟨b1, _ | ⟨b2, _ | ⟨b3, r⟩⟩⟩⟩ <;> simp [readU32P] at h
  exact ⟨b0, b1, b2, b3, by rw [h.2], h.1.symm⟩

theorem readU16P_spec {bs : List Nat} {n : Nat} {rest : List Nat}
    (h : readU16P bs = some (n, rest)) :
    (bytesValid bs → writeU16 n ++ rest = bs ∧ bytesValid rest ∧ n < 65536) ∧
      rest.length + 2 = bs.length := by
  obtain ⟨b0, b1, hbs, hn⟩ := readU16P_some h
  subst hbs hn
  refine ⟨fun hv => ?_, by simp⟩
  have h0 : b0 < 256 := hv b0 (by simp)
  have h1 : b1 < 256 := hv b1 (by simp)
  refine ⟨by rw [writeU16_rt h0 h1]; rfl, fun b hb => hv b (by simp [hb]), by omega⟩

theorem readU32P_spec {bs : List Nat} {n : Nat} {rest : List Nat}
    (h : readU32P bs = some (n, rest)) :
    (bytesValid bs → writeU32 n ++ rest = bs ∧ bytesValid rest ∧ n < 4294967296) ∧
      rest.length + 4 = bs.length := by
  obtain ⟨b0, b1, b2, b3, hbs, hn⟩ := readU32P_some h
  subst hbs hn
  refine ⟨fun hv => ?_, by simp⟩
  have h0 : b0 < 256 := hv b0 (by simp)
  have h1 : b1 < 256 := hv b1 (by simp)
  have h2 : b2 < 256 := hv b2 (by simp)
  have h3 : b3 < 256 := hv b3 (by simp)
  refine ⟨by rw [writeU32_rt h0 h1 h2 h3]; rfl,
    fun b hb => hv b (by simp [hb]), by omega⟩

theorem readBytesP_some {n : Nat} {bs xs rest : List Nat}
    (h : readBytesP n bs = some (xs, rest)) :
    xs ++ rest = bs ∧ xs.length = n := by
  unfold readBytesP at h
  split at h
  · rename_i hle
    cases h
    exact ⟨List.take_append_drop n bs, by simp [List.length_take]; omega⟩
  · exact absurd h (by simp)

theorem expectMagicP_some {m bs r : List Nat} (h : expectMagicP m bs = some r) :
    bs = m ++ r := by
  unfold expectMagicP at h
  split at h
  · rename_i ht
    cases h
    conv_lhs => rw [← List.take_append_drop m.length bs]
    rw [ht]
  · exact absurd h (by simp)

theorem waveFormatOfU16_toU16 {v : Nat} {af : WaveFormat}
    (h : waveFormatOfU16 v = some af) : af.toU16 = v := by
  unfold waveFormatOfU16 at h
  split_ifs at h <;> cases h <;> simp_all [WaveFormat.toU16]

theorem bitDepthOfU16_toU16 {v : Nat} {b : BitDepth}
    (h : bitDepthOfU16 v = some b) : b.toU16 = v := by
  unfold bitDepthOfU16 at h
  split_ifs at h <;> cases h <;> simp_all [BitDepth.toU16]

theorem bitDepthOfU16_eq_none {v : Nat} (h8 : v ≠ 8) (h16 : v ≠ 16)
    (h24 : v ≠ 24) (h32 : v ≠ 32) (h64 : v ≠ 64) : bitDepthOfU16 v = none := by
  unfold bitDepthOfU16
  rw [if_neg h8, if_neg h16, if_neg h24, if_neg h32, if_neg h64]

theorem bitDepth_toU16_mem (b : BitDepth) : b.toU16 ∈ [8, 16, 24, 32, 64] := by
  cases b <;> simp [BitDepth.toU16]

/-! ## Per-chunk reader specifications: re-encoding the parsed value
reproduces exactly the consumed bytes, and every chunk consumes at least
one byte. -/

theorem parseRiff_spec {bs : List Nat} {c : RiffChunk} {rest : List Nat}
    (h : parseRiff bs = some (c, rest)) :
    (bytesValid bs → writeRiff c ++ rest = bs ∧ bytesValid rest) ∧
      rest.length + 8 = bs.length := by
  unfold parseRiff at h
  rw [Option.bind_eq_some] at h
  obtain ⟨r0, hmg, h⟩ := h
  rw [Option.map_eq_some'] at h
  obtain ⟨⟨n, r⟩, hu, hp⟩ := h
  cases hp
  have hbs := expectMagicP_some hmg
  obtain ⟨henc, hlen⟩ := readU32P_spec hu
  subst hbs
  constructor
  · intro hv
    have hv0 : bytesValid r0 := (bytesValid_append.mp hv).2
    obtain ⟨he, hvr, _⟩ := henc hv0
    refine ⟨?_, hvr⟩
    rw [← he]
    simp [writeRiff]
  · simp only [List.length_append, riffMagic, List.length_cons, List.length_nil]
    omega

theorem parseExtensible_spec {bs : List Nat} {e : ExtensibleFormat} {rest : List Nat}
    (h : parseExtensible bs = some (e, rest)) :
    (bytesValid bs → writeExtensible e ++ rest = bs ∧ bytesValid rest) ∧
      rest.length + 24 = bs.length := by
  unfold parseExtensible at h
  rw [Option.bind_eq_some] at h
  obtain ⟨⟨sz, r1⟩, h1, h⟩ := h
  dsimp only at h
  rw [Option.bind_eq_some] at h
  obtain ⟨⟨vb, r2⟩, h2, h⟩ := h
  dsimp only at h
  rw [Option.bind_eq_some] at h
  obtain ⟨⟨cm, r3⟩, h3, h⟩ := h
  dsimp only at h
  rw [Option.map_eq_some'] at h
  obtain ⟨⟨guid, r4⟩, h4, hp⟩ := h
  cases hp
  obtain ⟨he1, hl1⟩ := readU16P_spec h1
  obtain ⟨he2, hl2⟩ := readU16P_spec h2
  obtain ⟨he3, hl3⟩ := readU32P_spec h3
  obtain ⟨hg, hgl⟩ := readBytesP_some h4
  constructor
  · intro hv
    obtain ⟨hw1, hv1, _⟩ := he1 hv
    obtain ⟨hw2, hv2, _⟩ := he2 hv1
    obtain ⟨hw3, hv3, _⟩ := he3 hv2
    rw [← hg] at hv3
    obtain ⟨hvg, hvr⟩ := bytesValid_append.mp hv3
    refine ⟨?_, hvr⟩
    rw [← hw1, ← hw2, ← hw3, ← hg]
    simp [writeExtensible]
  · have hr3 : r3.length = guid.length + r4.length := by
      rw [← hg]; simp
    show r4.length + 24 = bs.length
    omega

theorem parseFact_spec {bs : List Nat} {c : FactChunk} {rest : List Nat}
    (h : parseFact bs = some (c, rest)) :
    (bytesValid bs → writeFact c ++ rest = bs ∧ bytesValid rest) ∧
      rest.length + 12 = bs.length := by
  unfold parseFact at h
  rw [Option.bind_eq_some] at h
  obtain ⟨r0, hmg, h⟩ := h
  rw [Option.bind_eq_some] at h
  obtain ⟨⟨sz, r1⟩, h1, h⟩ := h
  dsimp only at h
  rw [Option.map_eq_some'] at h
  obtain ⟨⟨d, r2⟩, h2, hp⟩ := h
  cases hp
  have hbs := expectMagicP_some hmg
  obtain ⟨he1, hl1⟩ := readU32P_spec h1
  obtain ⟨he2, hl2⟩ := readU32P_spec h2
  subst hbs
  constructor
  · intro hv
    have hv0 : bytesValid r0 := (bytesValid_append.mp hv).2
    obtain ⟨hw1, hv1, _⟩ := he1 hv0
    obtain ⟨hw2, hv2, _⟩ := he2 hv1
    refine ⟨?_, hv2⟩
    rw [← hw1, ← hw2]
    simp [writeFact]
  · simp only [List.length_append, factMagic, List.length_cons, List.length_nil]
    omega

theorem parsePeakRec_spec {bs : List Nat} {p : Peak} {rest : List Nat}
    (h : parsePeakRec bs = some (p, rest)) :
    (bytesValid bs → writePeakRec p ++ rest = bs ∧ bytesValid rest) ∧
      rest.length + 8 = bs.length := by
  unfold parsePeakRec at h
  rw [Option.bind_eq_some] at h
  obtain ⟨⟨v, r1⟩, h1, h⟩ := h
  dsimp only at h
  rw [Option.map_eq_some'] at h
  obtain ⟨⟨pos, r2⟩, h2, hp⟩ := h
  cases hp
  obtain ⟨hv1, hvl⟩ := readBytesP_some h1
  obtain ⟨he2, hl2⟩ := readU32P_spec h2
  constructor
  · intro hv
    rw [← hv1] at hv
    obtain ⟨hvv, hvr1⟩ := bytesValid_append.mp hv
    obtain ⟨hw2, hv2, _⟩ := he2 hvr1
    refine ⟨?_, hv2⟩
    rw [← hv1, ← hw2]
    simp [writePeakRec]
  · have hbl : bs.length = v.length + r1.length := by
      rw [← hv1]; simp
    show r2.length + 8 = bs.length
    omega

theorem parsePeak_spec {bs : List Nat} {c : PeakChunk} {rest : List Nat}
    (h : parsePeak bs = some (c, rest)) :
    (bytesValid bs → writePeak c ++ rest = bs ∧ bytesValid rest) ∧
      rest.length + 32 = bs.length := by
  unfold parsePeak at h
  rw [Option.bind_eq_some] at h
  obtain ⟨r0, hmg, h⟩ := h
  rw [Option.bind_eq_some] at h
  obtain ⟨⟨sz, r1⟩, h1, h⟩ := h
  dsimp only at h
  rw [Option.bind_eq_some] at h
  obtain ⟨⟨ver, r2⟩, h2, h⟩ := h
  dsimp only at h
  rw [Option.bind_eq_some] at h
  obtain ⟨⟨ts, r3⟩, h3, h⟩ := h
  dsimp only at h
  rw [Option.bind_eq_some] at h
  obtain ⟨⟨p1, r4⟩, h4, h⟩ := h
  dsimp only at h
  rw [Option.map_eq_some'] at h
  obtain ⟨⟨p2, r5⟩, h5, hp⟩ := h
  cases hp
  have hbs := expectMagicP_some hmg
  obtain ⟨he1, hl1⟩ := readU32P_spec h1
  obtain ⟨he2, hl2⟩ := readU32P_spec h2
  obtain ⟨he3, hl3⟩ := readU32P_spec h3
  obtain ⟨he4, hl4⟩ := parsePeakRec_spec h4
  obtain ⟨he5, hl5⟩ := parsePeakRec_spec h5
  subst hbs
  constructor
  · intro hv
    have hv0 : bytesValid r0 := (bytesValid_append.mp hv).2
    obtain ⟨hw1, hv1, _⟩ := he1 hv0
    obtain ⟨hw2, hv2, _⟩ := he2 hv1
    obtain ⟨hw3, hv3, _⟩ := he3 hv2
    obtain ⟨hw4, hv4⟩ := he4 hv3
    obtain ⟨hw5, hv5⟩ := he5 hv4
    refine ⟨?_, hv5⟩
    rw [← hw1, ← hw2, ← hw3, ← hw4, ← hw5]
    simp [writePeak]
  · simp only [List.length_append, peakMagic, List.length_cons, List.length_nil]
    omega

theorem parseData_spec {bs : List Nat} {c : DataChunk} {rest : List Nat}
    (h : parseData bs = some (c, rest)) :
    (bytesValid bs → writeDataChunk c ++ rest = bs ∧ bytesValid rest) ∧
      rest.length + 8 ≤ bs.length := by
  unfold parseData at h
  rw [Option.bind_eq_some] at h
  obtain ⟨r0, hmg, h⟩ := h
  rw [Option.bind_eq_some] at h
  obtain ⟨⟨sz, r1⟩, h1, h⟩ := h
  dsimp only at h
  rw [Option.map_eq_some'] at h
  obtain ⟨⟨payload, r2⟩, h2, hp⟩ := h
  cases hp
  have hbs := expectMagicP_some hmg
  obtain ⟨he1, hl1⟩ := readU32P_spec h1
  obtain ⟨hp2, hpl⟩ := readBytesP_some h2
  subst hbs
  constructor
  · intro hv
    have hv0 : bytesValid r0 := (bytesValid_append.mp hv).2
    obtain ⟨hw1, hv1, _⟩ := he1 hv0
    rw [← hp2] at hv1
    obtain ⟨hvp, hvr⟩ := bytesValid_append.mp hv1
    refine ⟨?_, hvr⟩
    rw [← hw1, ← hp2]
    simp [writeDataChunk]
  · have hr1 : r1.length = payload.length + r2.length := by
      rw [← hp2]; simp
    show r2.length + 8 ≤ (dataMagic ++ r0).length
    simp only [List.length_append, dataMagic, List.length_cons, List.length_nil]
    omega

theorem parseFormat_spec {bs : List Nat} {f : FormatChunk} {rest : List Nat}
    (h : parseFormat bs = some (f, rest)) :
    (bytesValid bs → writeFormat f ++ rest = bs ∧ bytesValid rest) ∧
      rest.length + 28 ≤ bs.length ∧
      (f.extensible.isSome ↔ f.audio_format = WaveFormat.pcm) := by
  unfold parseFormat at h
  rw [Option.bind_eq_some] at h
  obtain ⟨r0, hmg, h⟩ := h
  rw [Option.bind_eq_some] at h
  obtain ⟨⟨szv, r1⟩, hsz, h⟩ := h
  dsimp only at h
  rw [Option.bind_eq_some] at h
  obtain ⟨⟨afv, r2⟩, hafv, h⟩ := h
  dsimp only at h
  rw [Option.bind_eq_some] at h
  obtain ⟨af, haf, h⟩ := h
  rw [Option.bind_eq_some] at h
  obtain ⟨⟨ncv, r3⟩, hnc, h⟩ := h
  dsimp only at h
  rw [Option.bind_eq_some] at h
  obtain ⟨⟨srv, r4⟩, hsr, h⟩ := h
  dsimp only at h
  rw [Option.bind_eq_some] at h
  obtain ⟨⟨brv, r5⟩, hbr, h⟩ := h
  dsimp only at h
  rw [Option.bind_eq_some] at h
  obtain ⟨⟨bav, r6⟩, hba, h⟩ := h
  dsimp only at h
  rw [Option.bind_eq_some] at h
  obtain ⟨⟨btv, r7⟩, hbt, h⟩ := h
  dsimp only at h
  rw [Option.bind_eq_some] at h
  obtain ⟨bits, hbits, h⟩ := h
  have hbs := expectMagicP_some hmg
  obtain ⟨heSz, hlSz⟩ := readU32P_spec hsz
  obtain ⟨heAf, hlAf⟩ := readU16P_spec hafv
  obtain ⟨heNc, hlNc⟩ := readU16P_spec hnc
  obtain ⟨heSr, hlSr⟩ := readU32P_spec hsr
  obtain ⟨heBr, hlBr⟩ := readU32P_spec hbr
  obtain ⟨heBa, hlBa⟩ := readU16P_spec hba
  obtain ⟨heBt, hlBt⟩ := readU16P_spec hbt
  have hafu := waveFormatOfU16_toU16 haf
  have hbtu := bitDepthOfU16_toU16 hbits
  split at h
  · rename_i hpcm
    rw [Option.map_eq_some'] at h
    obtain ⟨⟨e, r8⟩, hext, hp⟩ := h
    dsimp only at hp
    cases hp
    obtain ⟨heE, hlE⟩ := parseExtensible_spec hext
    subst hbs
    refine ⟨fun hv => ?_, ?_, ?_⟩
    · have hv0 : bytesValid r0 := (bytesValid_append.mp hv).2
      obtain ⟨hwSz, hv1, _⟩ := heSz hv0
      obtain ⟨hwAf, hv2, _⟩ := heAf hv1
      obtain ⟨hwNc, hv3, _⟩ := heNc hv2
      obtain ⟨hwSr, hv4, _⟩ := heSr hv3
      obtain ⟨hwBr, hv5, _⟩ := heBr hv4
      obtain ⟨hwBa, hv6, _⟩ := heBa hv5
      obtain ⟨hwBt, hv7, _⟩ := heBt hv6
      obtain ⟨hwE, hv8⟩ := heE hv7
      refine ⟨?_, hv8⟩
      rw [← hwSz, ← hwAf, ← hwNc, ← hwSr, ← hwBr, ← hwBa, ← hwBt, ← hwE]
      simp [writeFormat, ← hafu, ← hbtu]
    · show rest.length + 28 ≤ (fmtMagic ++ r0).length
      simp only [List.length_append, fmtMagic, List.length_cons, List.length_nil]
      omega
    · simp [hpcm]
  · rename_i hnpcm
    rw [Option.some.injEq] at h
    cases h
    subst hbs
    refine ⟨fun hv => ?_, ?_, ?_⟩
    · have hv0 : bytesValid r0 := (bytesValid_append.mp hv).2
      obtain ⟨hwSz, hv1, _⟩ := heSz hv0
      obtain ⟨hwAf, hv2, _⟩ := heAf hv1
      obtain ⟨hwNc, hv3, _⟩ := heNc hv2
      obtain ⟨hwSr, hv4, _⟩ := heSr hv3
      obtain ⟨hwBr, hv5, _⟩ := heBr hv4
      obtain ⟨hwBa, hv6, _⟩ := heBa hv5
      obtain ⟨hwBt, hv7, _⟩ := heBt hv6
      refine ⟨?_, hv7⟩
      rw [← hwSz, ← hwAf, ← hwNc, ← hwSr, ← hwBr, ← hwBa, ← hwBt]
      simp [writeFormat, ← hafu, ← hbtu]
    · show rest.length + 28 ≤ (fmtMagic ++ r0).length
      simp only [List.length_append, fmtMagic, List.length_cons, List.length_nil]
      omega
    · simp [hnpcm]

/-! ## The chunk dispatcher and the chunk-sequence loop -/

theorem parseChunk_spec {bs : List Nat} {c : Chunk} {rest : List Nat}
    (h : parseChunk bs = (c, rest)) : chunkParsedFrom c bs rest := by
  unfold parseChunk at h
  rcases h1 : parseRiff bs with _ | p <;> rw [h1] at h
  case some =>
    injection h with hc hr
    subst hc
    subst hr
    exact h1
  rcases h2 : parseFormat bs with _ | p <;> rw [h2] at h
  case some =>
    injection h with hc hr
    subst hc
    subst hr
    exact h2
  rcases h3 : parseFact bs with _ | p <;> rw [h3] at h
  case some =>
    injection h with hc hr
    subst hc
    subst hr
    exact h3
  rcases h4 : parsePeak bs with _ | p <;> rw [h4] at h
  case some =>
    injection h with hc hr
    subst hc
    subst hr
    exact h4
  rcases h5 : parseData bs with _ | p <;> rw [h5] at h
  case some =>
    injection h with hc hr
    subst hc
    subst hr
    exact h5
  dsimp only at h
  rcases bs with _ | ⟨b, r⟩
  · dsimp only at h
    injection h with hc hr
    subst hc
    subst hr
    rfl
  · dsimp only at h
    split at h
    · rename_i hb
      injection h with hc hr
      subst hc
      subst hr
      show b :: r = 0 :: r
      rw [hb]
    · injection h with hc hr
      subst hc
      subst hr
      rfl

theorem parseChunk_lt {bs : List Nat} {c : Chunk} {rest : List Nat}
    (h : parseChunk bs = (c, rest)) (hc : c ≠ Chunk.eof) :
    rest.length < bs.length := by
  have hs := parseChunk_spec h
  cases c with
  | riff x => have := (parseRiff_spec hs).2; omega
  | format x => have := (parseFormat_spec hs).2.1; omega
  | fact x => have := (parseFact_spec hs).2; omega
  | peak x => have := (parsePeak_spec hs).2; omega
  | data x => have := (parseData_spec hs).2; omega
  | empty => rw [hs]; simp
  | eof => exact absurd rfl hc

theorem parseChunksF_fuel {n : Nat} : ∀ {m : Nat} {l : List Nat},
    l.length < n → l.length < m → parseChunksF n l = parseChunksF m l := by
  induction n with
  | zero => intro m l hn hm; exact absurd hn (Nat.not_lt_zero _)
  | succ k ih =>
    intro m l hn hm
    cases m with
    | zero => exact absurd hm (Nat.not_lt_zero _)
    | succ j =>
      show parseChunksF (k + 1) l = parseChunksF (j + 1) l
      rcases hpc : parseChunk l with ⟨c, rest⟩
      cases c with
      | eof => simp only [parseChunksF, hpc]
      | riff x =>
        have hlt := parseChunk_lt hpc (by simp)
        simp only [parseChunksF, hpc]
        rw [@ih j rest (by omega) (by omega)]
      | format x =>
        have hlt := parseChunk_lt hpc (by simp)
        simp only [parseChunksF, hpc]
        rw [@ih j rest (by omega) (by omega)]
      | fact x =>
        have hlt := parseChunk_lt hpc (by simp)
        simp only [parseChunksF, hpc]
        rw [@ih j rest (by omega) (by omega)]
      | peak x =>
        have hlt := parseChunk_lt hpc (by simp)
        simp only [parseChunksF, hpc]
        rw [@ih j rest (by omega) (by omega)]
      | data x =>
        have hlt := parseChunk_lt hpc (by simp)
        simp only [parseChunksF, hpc]
        rw [@ih j rest (by omega) (by omega)]
      | empty =>
        have hlt := parseChunk_lt hpc (by simp)
        simp only [parseChunksF, hpc]
        rw [@ih j rest (by omega) (by omega)]

theorem parseChunks_eof {bs : List Nat} (h : (parseChunk bs).1 = Chunk.eof) :
    parseChunks bs = ([], bs) := by
  unfold parseChunks
  rcases hpc : parseChunk bs with ⟨c, rest⟩
  rw [hpc] at h
  dsimp only at h
  subst h
  simp only [parseChunksF, hpc]

theorem parseChunks_step {bs : List Nat} {c : Chunk} {rest : List Nat}
    (h : parseChunk bs = (c, rest)) (hc : c ≠ Chunk.eof) :
    parseChunks bs = (c :: (parseChunks rest).1, (parseChunks rest).2) := by
  have hlt := parseChunk_lt h hc
  have heq : parseChunksF bs.length rest = parseChunks rest :=
    parseChunksF_fuel hlt (Nat.lt_succ_self _)
  rw [← heq]
  show parseChunksF (bs.length + 1) bs = _
  cases c with
  | eof => exact absurd rfl hc
  | riff x => simp only [parseChunksF, h]
  | format x => simp only [parseChunksF, h]
  | fact x => simp only [parseChunksF, h]
  | peak x => simp only [parseChunksF, h]
  | data x => simp only [parseChunksF, h]
  | empty => simp only [parseChunksF, h]

theorem parseChunks_nil_inv {bs rem : List Nat} (h : parseChunks bs = ([], rem)) :
    rem = bs ∧ (parseChunk bs).1 = Chunk.eof := by
  rcases hpc : parseChunk bs with ⟨c0, rest0⟩
  by_cases he : c0 = Chunk.eof
  · subst he
    have h0 : (parseChunk bs).1 = Chunk.eof := by rw [hpc]
    rw [parseChunks_eof h0] at h
    injection h with h1 h2
    exact ⟨h2.symm, rfl⟩
  · rw [parseChunks_step hpc he] at h
    injection h with h1 h2
    exact absurd h1 (by simp)

theorem parseChunks_cons_inv {bs : List Nat} {c : Chunk} {l : List Chunk}
    {rem : List Nat} (h : parseChunks bs = (c :: l, rem)) :
    c ≠ Chunk.eof ∧ ∃ rest, parseChunk bs = (c, rest) ∧ parseChunks rest = (l, rem) := by
  rcases hpc : parseChunk bs with ⟨c0, rest0⟩
  by_cases he : c0 = Chunk.eof
  · subst he
    have h0 : (parseChunk bs).1 = Chunk.eof := by rw [hpc]
    rw [parseChunks_eof h0] at h
    injection h with h1 h2
    exact absurd h1 (by simp)
  · rw [parseChunks_step hpc he] at h
    injection h with h1 h2
    injection h1 with hcc hl
    subst hcc
    exact ⟨he, rest0, rfl, by rw [← hl, ← h2]⟩

/-! ## Encode-direction helpers -/

theorem expectMagicP_append (m rest : List Nat) :
    expectMagicP m (m ++ rest) = some rest := by
  unfold expectMagicP
  rw [List.take_left, if_pos rfl, List.drop_left]

theorem readU16P_writeU16 {n : Nat} (hn : n < 65536) (rest : List Nat) :
    readU16P (writeU16 n ++ rest) = some (n, rest) := by
  simp only [writeU16, List.cons_append, List.nil_append, readU16P,
    Option.some.injEq, Prod.mk.injEq, and_true]
  omega

theorem readU32P_writeU32 {n : Nat} (hn : n < 4294967296) (rest : List Nat) :
    readU32P (writeU32 n ++ rest) = some (n, rest) := by
  simp only [writeU32, List.cons_append, List.nil_append, readU32P,
    Option.some.injEq, Prod.mk.injEq, and_true]
  omega

theorem readBytesP_append (xs rest : List Nat) :
    readBytesP xs.length (xs ++ rest) = some (xs, rest) := by
  unfold readBytesP
  rw [if_pos (by simp), List.take_left, List.drop_left]

theorem assemble_error {l : List Chunk} {e : WaverlyError}
    (h : assemble l = .error e) :
    ∃ msg, e = WaverlyError.ioError IoErrorKind.invalidInput msg := by
  simp only [assemble] at h
  rcases hR : (foldSlots l).riff with _ | r <;> rw [hR] at h
  · exact ⟨_, (Except.error.inj h).symm⟩
  rcases hF : (foldSlots l).format with _ | f <;> rw [hF] at h
  · exact ⟨_, (Except.error.inj h).symm⟩
  rcases hD : (foldSlots l).data with _ | d <;> rw [hD] at h
  · exact ⟨_, (Except.error.inj h).symm⟩
  dsimp only at h
  split at h
  · exact ⟨_, (Except.error.inj h).symm⟩
  · exact absurd h (by simp)

/-! ## Claim theorems -/

/-- C7: for every successfully decoded `DataChunk` the payload length equals
the `size` field exactly (no even-byte padding is consumed), and for an
arbitrary payload of length `L` declared as `size = L`, decoding then
encoding the `data` chunk reproduces exactly the `L` payload bytes. -/
theorem c7_data_roundtrip :
    (∀ (bs : List Nat) (d : DataChunk) (rest : List Nat),
       parseData bs = some (d, rest) → d.data.length = d.size) ∧
    (∀ (payload rest : List Nat), payload.length < 4294967296 →
       parseData (dataMagic ++ writeU32 payload.length ++ payload ++ rest) =
         some ({ size := payload.length, data := payload }, rest) ∧
       writeDataChunk { size := payload.length, data := payload } =
         dataMagic ++ writeU32 payload.length ++ payload) := by
  constructor
  · intro bs d rest h
    unfold parseData at h
    rw [Option.bind_eq_some] at h
    obtain ⟨r0, hmg, h⟩ := h
    rw [Option.bind_eq_some] at h
    obtain ⟨⟨sz, r1⟩, h1, h⟩ := h
    dsimp only at h
    rw [Option.map_eq_some'] at h
    obtain ⟨⟨payload, r2⟩, h2, hp⟩ := h
    cases hp
    exact (readBytesP_some h2).2
  · intro payload rest hlen
    constructor
    · unfold parseData
      rw [List.append_assoc, List.append_assoc, expectMagicP_append,
        Option.some_bind]
      rw [readU32P_writeU32 hlen]
      rw [Option.some_bind]
      dsimp only
      rw [readBytesP_append]
      rfl
    · rfl

/-- C8: every successfully decoded `PeakChunk` has exactly two peaks,
whatever the stream (hence whatever `num_channels` or the declared `size`
field) contains. -/
theorem c8_peak_always_two {bs : List Nat} {p : PeakChunk} {rest : List Nat}
    (h : parsePeak bs = some (p, rest)) : p.peaks.length = 2 := by
  unfold parsePeak at h
  rw [Option.bind_eq_some] at h
  obtain ⟨r0, hmg, h⟩ := h
  rw [Option.bind_eq_some] at h
  obtain ⟨⟨sz, r1⟩, h1, h⟩ := h
  dsimp only at h
  rw [Option.bind_eq_some] at h
  obtain ⟨⟨ver, r2⟩, h2, h⟩ := h
  dsimp only at h
  rw [Option.bind_eq_some] at h
  obtain ⟨⟨ts, r3⟩, h3, h⟩ := h
  dsimp only at h
  rw [Option.bind_eq_some] at h
  obtain ⟨⟨p1, r4⟩, h4, h⟩ := h
  dsimp only at h
  rw [Option.map_eq_some'] at h
  obtain ⟨⟨p2, r5⟩, h5, hp⟩ := h
  cases hp
  rfl

/-- C8 witness: the two-peak property evaluated at a concrete PEAK chunk. -/
theorem c8_peak_always_two_witness :
    ({ size := 24, version := 1, timestamp := 2,
       peaks := [{ value := [1, 2, 3, 4], position := 5 },
                 { value := [6, 7, 8, 9], position := 10 }] } : PeakChunk).peaks.length = 2 :=
  @c8_peak_always_two
    [80, 69, 65, 75, 24, 0, 0, 0, 1, 0, 0, 0, 2, 0, 0, 0,
     1, 2, 3, 4, 5, 0, 0, 0, 6, 7, 8, 9, 10, 0, 0, 0]
    { size := 24, version := 1, timestamp := 2,
      peaks := [{ value := [1, 2, 3, 4], position := 5 },
                { value := [6, 7, 8, 9], position := 10 }] }
    [] (by decide)

/-- C9: decoding a `FactChunk` reads exactly one 32-bit word after the
`size` field, for every value of the declared size bytes; the remainder of
the stream is untouched. -/
theorem c9_fact_fixed_body (s0 s1 s2 s3 d0 d1 d2 d3 : Nat) (rest : List Nat) :
    parseFact (factMagic ++ s0 :: s1 :: s2 :: s3 :: d0 :: d1 :: d2 :: d3 :: rest) =
      some ({ size := s0 + 256 * s1 + 65536 * s2 + 16777216 * s3,
              data := d0 + 256 * d1 + 65536 * d2 + 16777216 * d3 }, rest) := by
  unfold parseFact
  rw [expectMagicP_append, Option.some_bind]
  rfl

/-- C7 witness: the data round trip evaluated at payload `[1, 2, 3]`. -/
theorem c7_data_roundtrip_witness :
    parseData (dataMagic ++ writeU32 3 ++ [1, 2, 3] ++ []) =
      some ({ size := 3, data := [1, 2, 3] }, []) ∧
    writeDataChunk { size := 3, data := [1, 2, 3] } =
      dataMagic ++ writeU32 3 ++ [1, 2, 3] :=
  c7_data_roundtrip.2 [1, 2, 3] [] (by decide)

/-- C10: the `BitDepth` enum covers exactly the raw values 8, 16, 24, 32, 64;
every `Wave` produced by decoding carries one of them; and a `FormatChunk`
whose 16-bit `bits_per_sample` field holds any other value fails to decode. -/
theorem c10_bits_closed_set :
    (∀ b : BitDepth, b.toU16 ∈ [8, 16, 24, 32, 64]) ∧
    (∀ (bytes : List Nat) (w : Wave), fromReader bytes = Except.ok w →
       w.format.bits_per_sample.toU16 ∈ [8, 16, 24, 32, 64]) ∧
    (∀ (z0 z1 z2 z3 a0 a1 n0 n1 s0 s1 s2 s3 b0 b1 b2 b3 k0 k1 v0 v1 : Nat)
       (rest : List Nat), v0 + 256 * v1 ∉ [8, 16, 24, 32, 64] →
       parseFormat (fmtMagic ++ z0 :: z1 :: z2 :: z3 :: a0 :: a1 :: n0 :: n1 ::
         s0 :: s1 :: s2 :: s3 :: b0 :: b1 :: b2 :: b3 :: k0 :: k1 :: v0 :: v1 :: rest) =
         none) := by
  refine ⟨fun b => bitDepth_toU16_mem b, fun bytes w _ => bitDepth_toU16_mem _, ?_⟩
  intro z0 z1 z2 z3 a0 a1 n0 n1 s0 s1 s2 s3 b0 b1 b2 b3 k0 k1 v0 v1 rest hmem
  have hnone : bitDepthOfU16 (v0 + 256 * v1) = none := by
    simp only [List.mem_cons, List.not_mem_nil, or_false, not_or] at hmem
    exact bitDepthOfU16_eq_none hmem.1 hmem.2.1 hmem.2.2.1 hmem.2.2.2.1 hmem.2.2.2.2
  unfold parseFormat
  rw [expectMagicP_append]
  dsimp only [Option.some_bind, readU32P, readU16P]
  rcases hwf : waveFormatOfU16 (a0 + 256 * a1) with _ | af
  · rfl
  · dsimp only [Option.some_bind]
    rw [hnone]
    rfl

/-- C10 witness: a format chunk declaring 9 bits per sample is rejected. -/
theorem c10_bits_closed_set_witness :
    parseFormat (fmtMagic ++ 0 :: 0 :: 0 :: 0 :: 1 :: 0 :: 1 :: 0 :: 0 :: 0 :: 0 :: 0 ::
      0 :: 0 :: 0 :: 0 :: 1 :: 0 :: 9 :: 0 :: []) = none :=
  c10_bits_closed_set.2.2 0 0 0 0 1 0 1 0 0 0 0 0 0 0 0 0 1 0 9 0 [] (by decide)

/-- C4: on decode, the `ExtensibleFormat` sub-structure is present in the
parsed `FormatChunk` exactly when `audio_format` is `Pcm`; on encode, the
sub-structure is appended exactly when the in-memory `Option` is `Some`,
independent of `audio_format`. -/
theorem c4_extensible_gate :
    (∀ (bs : List Nat) (f : FormatChunk) (rest : List Nat),
       parseFormat bs = some (f, rest) →
       (f.extensible.isSome ↔ f.audio_format = WaveFormat.pcm)) ∧
    (∀ (f : FormatChunk) (e : ExtensibleFormat),
       writeFormat { f with extensible := some e } =
         writeFormat { f with extensible := none } ++ writeExtensible e) := by
  refine ⟨fun bs f rest h => (parseFormat_spec h).2.2, ?_⟩
  intro f e
  simp [writeFormat, List.append_assoc]

/-- C4 witness: a decoded IEEE-float format chunk has no extensible record. -/
theorem c4_extensible_gate_witness :
    (({ size := 16, audio_format := WaveFormat.ieeeFloat, num_channels := 2,
        sample_rate := 44100, byte_rate := 705600, block_align := 16,
        bits_per_sample := BitDepth.sixtyFour,
        extensible := none } : FormatChunk).extensible.isSome ↔
      ({ size := 16, audio_format := WaveFormat.ieeeFloat, num_channels := 2,
         sample_rate := 44100, byte_rate := 705600, block_align := 16,
         bits_per_sample := BitDepth.sixtyFour,
         extensible := none } : FormatChunk).audio_format = WaveFormat.pcm) :=
  c4_extensible_gate.1
    (fmtMagic ++ [16, 0, 0, 0, 3, 0, 2, 0, 68, 172, 0, 0, 64, 196, 10, 0, 16, 0, 64, 0])
    { size := 16, audio_format := WaveFormat.ieeeFloat, num_channels := 2,
      sample_rate := 44100, byte_rate := 705600, block_align := 16,
      bits_per_sample := BitDepth.sixtyFour, extensible := none }
    [] (by decide)

/-- C2 counterexample: a stream carrying three valid chunks followed by the
unrecognized bytes `88, 89, 90` at a chunk boundary decodes successfully —
it does not fail with a structural parse failure as the claim states. -/
theorem c2_counterexample :
    fromReader ([82, 73, 70, 70, 36, 0, 0, 0] ++
        [87, 65, 86, 69, 102, 109, 116, 32, 40, 0, 0, 0, 1, 0, 1, 0,
         64, 31, 0, 0, 64, 31, 0, 0, 1, 0, 8, 0,
         0, 0, 0, 0, 0, 0, 0, 0, 0, 0, 0, 0, 0, 0, 0, 0, 0, 0, 0, 0, 0, 0, 0, 0] ++
        [100, 97, 116, 97, 2, 0, 0, 0, 7, 9] ++ [88, 89, 90]) =
      Except.ok
        { riff := { size := 36 },
          format := { size := 40, audio_format := WaveFormat.pcm,
                      num_channels := 1, sample_rate := 8000, byte_rate := 8000,
                      block_align := 1, bits_per_sample := BitDepth.eight,
                      extensible := some { size := 0, valid_bits_per_sample := 0,
                                           channel_mask := 0,
                                           sub_format_guid := [0, 0, 0, 0, 0, 0, 0, 0,
                                                               0, 0, 0, 0, 0, 0, 0, 0] } },
          data := { size := 2, data := [7, 9] },
          fact := none, peak := none } := by
  rfl

/-- C2 (amended): at an unrecognized chunk boundary the zero-length `EOF`
magic matches instead of raising an error, so dispatch stops silently with
the bytes left unconsumed; consequently decoding never produces a
structural parse failure — every error `from_reader` returns is one of the
validation `IoError`s. -/
theorem c2_unrecognized_is_sentinel (bytes : List Nat) :
    (∀ e, fromReader bytes = Except.error e →
       ∃ msg, e = WaverlyError.ioError IoErrorKind.invalidInput msg) ∧
    (parseRiff bytes = none → parseFormat bytes = none → parseFact bytes = none →
     parsePeak bytes = none → parseData bytes = none → bytes.head? ≠ some 0 →
     parseChunk bytes = (Chunk.eof, bytes)) := by
  constructor
  · intro e h
    exact assemble_error h
  · intro hr hf hfa hp hd hh
    unfold parseChunk
    rw [hr, hf, hfa, hp, hd]
    rcases bytes with _ | ⟨b, r⟩
    · rfl
    · have hb : b ≠ 0 := by
        intro h0
        exact hh (by rw [h0]; rfl)
      dsimp only
      rw [if_neg hb]

/-- C2 witness: the silent-stop behaviour evaluated on the bytes `88, 89, 90`. -/
theorem c2_unrecognized_is_sentinel_witness :
    parseChunk [88, 89, 90] = (Chunk.eof, [88, 89, 90]) :=
  (c2_unrecognized_is_sentinel [88, 89, 90]).2 (by decide) (by decide) (by decide)
    (by decide) (by decide) (by decide)

/-- C3 counterexample: decoding a stream without a RIFF chunk fails with
`WaverlyError::IoError` (kind `InvalidInput`) — the same top-level kind used
for I/O failures — not with a separate validation error kind as the claim
states. -/
theorem c3_counterexample :
    fromReader [100, 97, 116, 97, 0, 0, 0, 0] =
      Except.error (WaverlyError.ioError IoErrorKind.invalidInput
        "RIFF chunk was not found in file.") := by
  rfl

/-- C3 (amended): the assembler checks RIFF, FORMAT, DATA and the non-PCM
FACT requirement in that order, each failure carrying its own distinct
message, but every one is surfaced as `WaverlyError::IoError` with kind
`InvalidInput` (the same kind wrapping I/O failures), not as a separate
validation variant; when all checks pass the assembled `Wave` is returned. -/
theorem c3_validation_conditions (l : List Chunk) :
    ((foldSlots l).riff = none →
      assemble l = Except.error (WaverlyError.ioError IoErrorKind.invalidInput
        "RIFF chunk was not found in file.")) ∧
    (∀ r, (foldSlots l).riff = some r → (foldSlots l).format = none →
      assemble l = Except.error (WaverlyError.ioError IoErrorKind.invalidInput
        "FORMAT chunk was not found in file.")) ∧
    (∀ r f, (foldSlots l).riff = some r → (foldSlots l).format = some f →
      (foldSlots l).data = none →
      assemble l = Except.error (WaverlyError.ioError IoErrorKind.invalidInput
        "DATA chunk was not found in file.")) ∧
    (∀ r f d, (foldSlots l).riff = some r → (foldSlots l).format = some f →
      (foldSlots l).data = some d → f.audio_format ≠ WaveFormat.pcm →
      (foldSlots l).fact = none →
      assemble l = Except.error (WaverlyError.ioError IoErrorKind.invalidInput
        "FACT format is required for non-PCM WAV formats")) ∧
    (∀ r f d, (foldSlots l).riff = some r → (foldSlots l).format = some f →
      (foldSlots l).data = some d →
      (f.audio_format = WaveFormat.pcm ∨ (foldSlots l).fact ≠ none) →
      assemble l = Except.ok { riff := r, format := f, data := d,
                               fact := (foldSlots l).fact,
                               peak := (foldSlots l).peak }) := by
  refine ⟨?_, ?_, ?_, ?_, ?_⟩
  · intro hR
    simp only [assemble]
    rw [hR]
  · intro r hR hF
    simp only [assemble]
    rw [hR, hF]
  · intro r f hR hF hD
    simp only [assemble]
    rw [hR, hF, hD]
  · intro r f d hR hF hD haf hFa
    simp only [assemble]
    rw [hR, hF, hD]
    dsimp only
    rw [if_pos ⟨haf, hFa⟩]
  · intro r f d hR hF hD hok
    simp only [assemble]
    rw [hR, hF, hD]
    dsimp only
    rw [if_neg ?hneg]
    case hneg =>
      rintro ⟨h1, h2⟩
      rcases hok with hpcm | hfact
      · exact h1 hpcm
      · exact hfact h2

/-- C3 witness: the RIFF condition evaluated on the empty chunk list. -/
theorem c3_validation_conditions_witness :
    assemble [] = Except.error (WaverlyError.ioError IoErrorKind.invalidInput
      "RIFF chunk was not found in file.") :=
  (c3_validation_conditions []).1 (by decide)

/-- C5: serialization emits RIFF, FORMAT, DATA, then FACT and PEAK when
present, with no terminator; and the assembled `Wave` — hence the emitted
byte stream — is the same for any permutation of the decoded chunk list
(at most one chunk of each kind), i.e. the on-disk input order is
irrelevant to the output order. -/
theorem c5_canonical_write_order {l l2 : List Chunk} {w : Wave}
    (hperm : l.Perm l2)
    (huniq : ∀ x ∈ l, ∀ y ∈ l, chunkKind x = chunkKind y → x = y)
    (hw : assemble l = Except.ok w) :
    assemble l2 = Except.ok w ∧
    writeWave w =
      writeRiff w.riff ++ writeFormat w.format ++ writeDataChunk w.data ++
        (match w.fact with | some c => writeFact c | none => []) ++
        (match w.peak with | some c => writePeak c | none => []) := by
  have hcomm : ∀ x ∈ l, ∀ y ∈ l, ∀ z : Slots,
      foldChunk (foldChunk z x) y = foldChunk (foldChunk z y) x := by
    intro x hx y hy z
    by_cases hxy : x = y
    · subst hxy
      rfl
    · have hk : chunkKind x ≠ chunkKind y := fun hkk => hxy (huniq x hx y hy hkk)
      cases x <;> cases y <;> first
        | rfl
        | exact absurd rfl hk
  have hfold : foldSlots l = foldSlots l2 := List.Perm.foldl_eq' hperm hcomm _
  refine ⟨?_, rfl⟩
  have heq : assemble l2 = assemble l := by
    unfold assemble
    rw [hfold]
  rw [heq, hw]

/-- C5 witness: a non-canonical on-disk order (DATA, RIFF, FORMAT) assembles
to the same `Wave` as the canonical order. -/
theorem c5_canonical_write_order_witness :
    assemble [Chunk.data { size := 0, data := [] },
              Chunk.format { size := 16, audio_format := WaveFormat.pcm,
                             num_channels := 1, sample_rate := 1, byte_rate := 1,
                             block_align := 1, bits_per_sample := BitDepth.eight,
                             extensible := none },
              Chunk.riff { size := 4 }] =
      Except.ok { riff := { size := 4 },
                  format := { size := 16, audio_format := WaveFormat.pcm,
                              num_channels := 1, sample_rate := 1, byte_rate := 1,
                              block_align := 1, bits_per_sample := BitDepth.eight,
                              extensible := none },
                  data := { size := 0, data := [] },
                  fact := none, peak := none } :=
  (c5_canonical_write_order (l := [Chunk.riff { size := 4 },
      Chunk.format { size := 16, audio_format := WaveFormat.pcm,
                     num_channels := 1, sample_rate := 1, byte_rate := 1,
                     block_align := 1, bits_per_sample := BitDepth.eight,
                     extensible := none },
      Chunk.data { size := 0, data := [] }])
    (by decide) (by decide) (by rfl)).1

/-- C6 counterexample: a stream of exactly one well-formed RIFF, FORMAT
(IEEE float) and DATA chunk followed by end-of-stream does not decode
cleanly — it fails with the missing-FACT validation error. -/
theorem c6_counterexample :
    fromReader ([82, 73, 70, 70, 36, 0, 0, 0] ++
        [87, 65, 86, 69, 102, 109, 116, 32, 16, 0, 0, 0, 3, 0, 2, 0,
         68, 172, 0, 0, 64, 196, 10, 0, 16, 0, 64, 0] ++
        [100, 97, 116, 97, 0, 0, 0, 0]) =
      Except.error (WaverlyError.ioError IoErrorKind.invalidInput
        "FACT format is required for non-PCM WAV formats") := by
  rfl

/-- C6 (amended): a stream parsing to exactly one RIFF, one FORMAT and one
DATA chunk followed by end-of-stream decodes cleanly when the format is
PCM; when the format is not PCM it instead fails with the missing-FACT
validation error. -/
theorem c6_minimal_stream {bytes : List Nat} {r : RiffChunk} {f : FormatChunk}
    {d : DataChunk}
    (h : parseChunks bytes = ([Chunk.riff r, Chunk.format f, Chunk.data d], [])) :
    (f.audio_format = WaveFormat.pcm →
      fromReader bytes = Except.ok { riff := r, format := f, data := d,
                                     fact := none, peak := none }) ∧
    (f.audio_format ≠ WaveFormat.pcm →
      fromReader bytes = Except.error (WaverlyError.ioError IoErrorKind.invalidInput
        "FACT format is required for non-PCM WAV formats")) := by
  have hl : (parseChunks bytes).1 = [Chunk.riff r, Chunk.format f, Chunk.data d] := by
    rw [h]
  have hfr : fromReader bytes = assemble [Chunk.riff r, Chunk.format f, Chunk.data d] := by
    unfold fromReader
    rw [hl]
  constructor
  · intro hpcm
    rw [hfr]
    unfold assemble foldSlots
    dsimp only [List.foldl, foldChunk]
    rw [if_neg (fun hcon => hcon.1 hpcm)]
  · intro hnp
    rw [hfr]
    unfold assemble foldSlots
    dsimp only [List.foldl, foldChunk]
    rw [if_pos ⟨hnp, rfl⟩]

/-- C6 witness: the clean-termination case evaluated on a concrete
PCM stream. -/
theorem c6_minimal_stream_witness :
    fromReader ([82, 73, 70, 70, 36, 0, 0, 0] ++
        [87, 65, 86, 69, 102, 109, 116, 32, 40, 0, 0, 0, 1, 0, 1, 0,
         64, 31, 0, 0, 64, 31, 0, 0, 1, 0, 8, 0,
         0, 0, 0, 0, 0, 0, 0, 0, 0, 0, 0, 0, 0, 0, 0, 0, 0, 0, 0, 0, 0, 0, 0, 0] ++
        [100, 97, 116, 97, 2, 0, 0, 0, 7, 9]) =
      Except.ok
        { riff := { size := 36 },
          format := { size := 40, audio_format := WaveFormat.pcm,
                      num_channels := 1, sample_rate := 8000, byte_rate := 8000,
                      block_align := 1, bits_per_sample := BitDepth.eight,
                      extensible := some { size := 0, valid_bits_per_sample := 0,
                                           channel_mask := 0,
                                           sub_format_guid := [0, 0, 0, 0, 0, 0, 0, 0,
                                                               0, 0, 0, 0, 0, 0, 0, 0] } },
          data := { size := 2, data := [7, 9] },
          fact := none, peak := none } :=
  (c6_minimal_stream (by decide)).1 rfl

/-- C1: for a well-formed stream whose on-disk chunk order is already the
canonical RIFF, FORMAT, DATA, optional FACT, optional PEAK (no filler), and
which decodes to a `Wave`, re-serializing that `Wave` reproduces the input
stream exactly, byte for byte. -/
theorem c1_canonical_roundtrip (bytes : List Nat) (l : List Chunk) (w : Wave)
    (hv : bytesValid bytes)
    (hparse : parseChunks bytes = (l, []))
    (hcanon : isCanonical l)
    (hw : fromReader bytes = Except.ok w) :
    writeWave w = bytes := by
  have hfr : assemble l = Except.ok w := by
    unfold fromReader at hw
    rw [hparse] at hw
    exact hw
  rcases hcanon with ⟨r, f, d, rfl⟩ | ⟨r, f, d, fa, rfl⟩ | ⟨r, f, d, pk, rfl⟩ |
    ⟨r, f, d, fa, pk, rfl⟩
  · obtain ⟨hne1, rest1, hc1, hp1⟩ := parseChunks_cons_inv hparse
    obtain ⟨hne2, rest2, hc2, hp2⟩ := parseChunks_cons_inv hp1
    obtain ⟨hne3, rest3, hc3, hp3⟩ := parseChunks_cons_inv hp2
    obtain ⟨hrem, _⟩ := parseChunks_nil_inv hp3
    subst hrem
    have s1 : parseRiff bytes = some (r, rest1) := parseChunk_spec hc1
    have s2 : parseFormat rest1 = some (f, rest2) := parseChunk_spec hc2
    have s3 : parseData rest2 = some (d, []) := parseChunk_spec hc3
    obtain ⟨hw1, hv1⟩ := (parseRiff_spec s1).1 hv
    obtain ⟨hw2, hv2⟩ := (parseFormat_spec s2).1 hv1
    obtain ⟨hw3, hv3⟩ := (parseData_spec s3).1 hv2
    unfold assemble foldSlots at hfr
    dsimp only [List.foldl, foldChunk] at hfr
    split at hfr
    · exact absurd hfr (by simp)
    · rw [Except.ok.injEq] at hfr
      subst hfr
      rw [← hw1, ← hw2, ← hw3]
      simp [writeWave, List.append_assoc]
  · obtain ⟨hne1, rest1, hc1, hp1⟩ := parseChunks_cons_inv hparse
    obtain ⟨hne2, rest2, hc2, hp2⟩ := parseChunks_cons_inv hp1
    obtain ⟨hne3, rest3, hc3, hp3⟩ := parseChunks_cons_inv hp2
    obtain ⟨hne4, rest4, hc4, hp4⟩ := parseChunks_cons_inv hp3
    obtain ⟨hrem, _⟩ := parseChunks_nil_inv hp4
    subst hrem
    have s1 : parseRiff bytes = some (r, rest1) := parseChunk_spec hc1
    have s2 : parseFormat rest1 = some (f, rest2) := parseChunk_spec hc2
    have s3 : parseData rest2 = some (d, rest3) := parseChunk_spec hc3
    have s4 : parseFact rest3 = some (fa, []) := parseChunk_spec hc4
    obtain ⟨hw1, hv1⟩ := (parseRiff_spec s1).1 hv
    obtain ⟨hw2, hv2⟩ := (parseFormat_spec s2).1 hv1
    obtain ⟨hw3, hv3⟩ := (parseData_spec s3).1 hv2
    obtain ⟨hw4, hv4⟩ := (parseFact_spec s4).1 hv3
    unfold assemble foldSlots at hfr
    dsimp only [List.foldl, foldChunk] at hfr
    split at hfr
    · exact absurd hfr (by simp)
    · rw [Except.ok.injEq] at hfr
      subst hfr
      rw [← hw1, ← hw2, ← hw3, ← hw4]
      simp [writeWave, List.append_assoc]
  · obtain ⟨hne1, rest1, hc1, hp1⟩ := parseChunks_cons_inv hparse
    obtain ⟨hne2, rest2, hc2, hp2⟩ := parseChunks_cons_inv hp1
    obtain ⟨hne3, rest3, hc3, hp3⟩ := parseChunks_cons_inv hp2
    obtain ⟨hne4, rest4, hc4, hp4⟩ := parseChunks_cons_inv hp3
    obtain ⟨hrem, _⟩ := parseChunks_nil_inv hp4
    subst hrem
    have s1 : parseRiff bytes = some (r, rest1) := parseChunk_spec hc1
    have s2 : parseFormat rest1 = some (f, rest2) := parseChunk_spec hc2
    have s3 : parseData rest2 = some (d, rest3) := parseChunk_spec hc3
    have s4 : parsePeak rest3 = some (pk, []) := parseChunk_spec hc4
    obtain ⟨hw1, hv1⟩ := (parseRiff_spec s1).1 hv
    obtain ⟨hw2, hv2⟩ := (parseFormat_spec s2).1 hv1
    obtain ⟨hw3, hv3⟩ := (parseData_spec s3).1 hv2
    obtain ⟨hw4, hv4⟩ := (parsePeak_spec s4).1 hv3
    unfold assemble foldSlots at hfr
    dsimp only [List.foldl, foldChunk] at hfr
    split at hfr
    · exact absurd hfr (by simp)
    · rw [Except.ok.injEq] at hfr
      subst hfr
      rw [← hw1, ← hw2, ← hw3, ← hw4]
      simp [writeWave, List.append_assoc]
  · obtain ⟨hne1, rest1, hc1, hp1⟩ := parseChunks_cons_inv hparse
    obtain ⟨hne2, rest2, hc2, hp2⟩ := parseChunks_cons_inv hp1
    obtain ⟨hne3, rest3, hc3, hp3⟩ := parseChunks_cons_inv hp2
    obtain ⟨hne4, rest4, hc4, hp4⟩ := parseChunks_cons_inv hp3
    obtain ⟨hne5, rest5, hc5, hp5⟩ := parseChunks_cons_inv hp4
    obtain ⟨hrem, _⟩ := parseChunks_nil_inv hp5
    subst hrem
    have s1 : parseRiff bytes = some (r, rest1) := parseChunk_spec hc1
    have s2 : parseFormat rest1 = some (f, rest2) := parseChunk_spec hc2
    have s3 : parseData rest2 = some (d, rest3) := parseChunk_spec hc3
    have s4 : parseFact rest3 = some (fa, rest4) := parseChunk_spec hc4
    have s5 : parsePeak rest4 = some (pk, []) := parseChunk_spec hc5
    obtain ⟨hw1, hv1⟩ := (parseRiff_spec s1).1 hv
    obtain ⟨hw2, hv2⟩ := (parseFormat_spec s2).1 hv1
    obtain ⟨hw3, hv3⟩ := (parseData_spec s3).1 hv2
    obtain ⟨hw4, hv4⟩ := (parseFact_spec s4).1 hv3
    obtain ⟨hw5, hv5⟩ := (parsePeak_spec s5).1 hv4
    unfold assemble foldSlots at hfr
    dsimp only [List.foldl, foldChunk] at hfr
    split at hfr
    · exact absurd hfr (by simp)
    · rw [Except.ok.injEq] at hfr
      subst hfr
      rw [← hw1, ← hw2, ← hw3, ← hw4, ← hw5]
      simp [writeWave, List.append_assoc]

/-- C1 witness: the canonical round trip evaluated on a concrete
RIFF + FORMAT (IEEE float) + DATA + FACT stream. -/
theorem c1_canonical_roundtrip_witness :
    writeWave
      { riff := { size := 36 },
        format := { size := 16, audio_format := WaveFormat.ieeeFloat,
                    num_channels := 2, sample_rate := 44100, byte_rate := 705600,
                    block_align := 16, bits_per_sample := BitDepth.sixtyFour,
                    extensible := none },
        data := { size := 2, data := [7, 9] },
        fact := some { size := 4, data := 10 }, peak := none } =
      ([82, 73, 70, 70, 36, 0, 0, 0] ++
       [87, 65, 86, 69, 102, 109, 116, 32, 16, 0, 0, 0, 3, 0, 2, 0,
        68, 172, 0, 0, 64, 196, 10, 0, 16, 0, 64, 0] ++
       [100, 97, 116, 97, 2, 0, 0, 0, 7, 9] ++
       [102, 97, 99, 116, 4, 0, 0, 0, 10, 0, 0, 0]) :=
  c1_canonical_roundtrip
    ([82, 73, 70, 70, 36, 0, 0, 0] ++
     [87, 65, 86, 69, 102, 109, 116, 32, 16, 0, 0, 0, 3, 0, 2, 0,
      68, 172, 0, 0, 64, 196, 10, 0, 16, 0, 64, 0] ++
     [100, 97, 116, 97, 2, 0, 0, 0, 7, 9] ++
     [102, 97, 99, 116, 4, 0, 0, 0, 10, 0, 0, 0])
    [Chunk.riff { size := 36 },
     Chunk.format { size := 16, audio_format := WaveFormat.ieeeFloat,
                    num_channels := 2, sample_rate := 44100, byte_rate := 705600,
                    block_align := 16, bits_per_sample := BitDepth.sixtyFour,
                    extensible := none },
     Chunk.data { size := 2, data := [7, 9] },
     Chunk.fact { size := 4, data := 10 }]
    { riff := { size := 36 },
      format := { size := 16, audio_format := WaveFormat.ieeeFloat,
                  num_channels := 2, sample_rate := 44100, byte_rate := 705600,
                  block_align := 16, bits_per_sample := BitDepth.sixtyFour,
                  extensible := none },
      data := { size := 2, data := [7, 9] },
      fact := some { size := 4, data := 10 }, peak := none }
    (by unfold bytesValid; decide) (by decide)
    (Or.inr (Or.inl ⟨_, _, _, _, rfl⟩)) (by rfl)
